import Mathlib

/-
Verification of the AguaLink-Solutions-Dashboard geospatial engine.

Shallow embedding of the core logic:
  * src/utils/utils.py            : iter_coords, get_bounds, centroid_of_feature
  * src/pages/report_incidents.py : merge_incidents_data
  * src/pages/home_zoom_best_so_far.py :
      calculate_feature_bounds, find_clicked_feature, zoom_to_feature,
      and the render-time "consume pending zoom" step (lines 613-616).

Coordinates are modelled as rationals (the Python code uses floats; none of
the verified properties depends on rounding).  The Euclidean distance used by
the click resolver is modelled by its square: the source compares
sqrt(dx^2+dy^2) with nonnegative thresholds and with other distances, and
x ^ 2 is strictly monotone on nonnegatives, so every comparison made by the
source is equivalent to the corresponding comparison of squares.
-/

namespace AguaLink

/-- A (longitude, latitude) pair, as yielded by iter_coords. -/
abbrev Coord := ℚ × ℚ

/-- A ring of a polygon: an ordered list of (lon, lat) vertices. -/
abbrev Ring := List Coord

/-- A GeoJSON-like geometry value: the "type" tag together with the
"coordinates" payload.  Geometries whose type is neither Polygon nor
MultiPolygon are collapsed to `other` (iter_coords yields nothing for them
and the merge signature sees an absent coordinates list). -/
inductive Geometry where
  | polygon (rings : List Ring)
  | multiPolygon (polys : List (List Ring))
  | other
deriving DecidableEq

/-- A GeoJSON feature as consumed by the code: a possibly-missing/empty
geometry (Python treats a missing key and an empty dict alike as falsy,
modelled by `none`) and the two property keys the verified code reads.
`none` for a property models the key being absent from the properties map. -/
structure Feature where
  geometry : Option Geometry
  name : Option String
  ftype : Option String
deriving DecidableEq

/-- A GeoJSON feature collection: the ordered "features" list. -/
structure FeatureCollection where
  features : List Feature
deriving DecidableEq

/-! ## Geometry utilities (src/utils/utils.py) -/

/-- utils.iter_coords: yield the (lon, lat) pairs of a Polygon or
MultiPolygon geometry in document order; unknown types yield nothing. -/
def iter_coords : Geometry → List Coord
  | .polygon rings => rings.flatten
  | .multiPolygon polys => (polys.map List.flatten).flatten
  | .other => []

/-- The coordinate stream of a feature: iter_coords of its geometry, empty
when the geometry is falsy (utils.get_bounds skips such features and
utils.centroid_of_feature passes the empty dict through iter_coords). -/
def featureCoords (f : Feature) : List Coord :=
  match f.geometry with
  | none => []
  | some g => iter_coords g

/-- Python min over a nonempty list (the embedding is only applied to
nonempty lists; [] is given an arbitrary value). -/
def listMin : List ℚ → ℚ
  | [] => 0
  | x :: xs => xs.foldl min x

/-- Python max over a nonempty list. -/
def listMax : List ℚ → ℚ
  | [] => 0
  | x :: xs => xs.foldl max x

/-- utils.get_bounds: south-west / north-east bounds of a feature list,
as ((south, west), (north, east)); falls back to the fixed Manitoba box
[[48.0, -102.0], [60.5, -88.0]] when no coordinates are found. -/
def get_bounds (features : List Feature) : (ℚ × ℚ) × (ℚ × ℚ) :=
  let cs := features.flatMap featureCoords
  let xs := cs.map Prod.fst
  let ys := cs.map Prod.snd
  if xs.isEmpty then ((48, -102), (121/2, -88))
  else ((listMin ys, listMin xs), (listMax ys, listMax xs))

/-- utils.centroid_of_feature: vertex-average centroid (lat, lon) of a
feature, with the fixed fallback (50.0, -97.0) when it has no coordinates. -/
def centroid_of_feature (f : Feature) : ℚ × ℚ :=
  let cs := featureCoords f
  let xs := cs.map Prod.fst
  let ys := cs.map Prod.snd
  if cs.isEmpty then (50, -97)
  else (ys.sum / cs.length, xs.sum / cs.length)

/-! ## Incident merger (src/pages/report_incidents.py) -/

/-- Decimal-style rendering of a rational, standing in for Python repr of
the float coordinate values (injective on ℚ, as repr is on floats). -/
def ratStr (q : ℚ) : String := toString q

/-- Rendering of one [lon, lat] coordinate as Python str renders the list. -/
def coordStr (c : Coord) : String :=
  "[" ++ ratStr c.1 ++ ", " ++ ratStr c.2 ++ "]"

/-- Rendering of a ring (list of coordinates). -/
def ringStr (r : Ring) : String :=
  "[" ++ String.intercalate ", " (r.map coordStr) ++ "]"

/-- Rendering of a list of rings. -/
def ringListStr (rs : List Ring) : String :=
  "[" ++ String.intercalate ", " (rs.map ringStr) ++ "]"

/-- Rendering of a list of polygons. -/
def polyListStr (ps : List (List Ring)) : String :=
  "[" ++ String.intercalate ", " (ps.map ringListStr) ++ "]"

/-- The `coords_str` of merge_incidents_data:
`str(geom.get("coordinates", [])[:1]) if geom else ""`.
Taking `[:1]` of the coordinates array keeps the whole first element of
that array: the entire first ring of a Polygon (resp. the entire first
polygon of a MultiPolygon), not merely its first vertex. -/
def coordsStr (geometry : Option Geometry) : String :=
  match geometry with
  | none => ""
  | some (.polygon rings) => ringListStr (rings.take 1)
  | some (.multiPolygon polys) => polyListStr (polys.take 1)
  | some .other => "[]"

/-- The dedup signature of merge_incidents_data:
`f"{props.get('name', '')}-{props.get('type', '')}-{coords_str}"`. -/
def featureSignature (f : Feature) : String :=
  f.name.getD "" ++ "-" ++ f.ftype.getD "" ++ "-" ++ coordsStr f.geometry

/-- The merge loop of merge_incidents_data (lines 71-82): walk the incoming
features, appending a feature and recording its signature when the
signature is new, counting a duplicate otherwise. -/
def mergeGo (sigs : List String) (acc : List Feature) (added dup : ℕ) :
    List Feature → List Feature × ℕ × ℕ
  | [] => (acc, added, dup)
  | f :: fs =>
    let s := featureSignature f
    if s ∈ sigs then mergeGo sigs acc added (dup + 1) fs
    else mergeGo (s :: sigs) (acc ++ [f]) (added + 1) dup fs

/-- Result type of merge_incidents_data: the function returns the bare
incoming collection when `existing_data` is falsy (line 53-54) and the
(merged, added, duplicates) triple otherwise (lines 84-89). -/
inductive MergeResult where
  | passthrough (fc : FeatureCollection)
  | merged (fc : FeatureCollection) (added dup : ℕ)
deriving DecidableEq

/-- report_incidents.merge_incidents_data.  A falsy `existing_data`
(Python None or an empty mapping) is modelled by `none`. -/
def merge_incidents_data (existing : Option FeatureCollection)
    (newData : FeatureCollection) : MergeResult :=
  match existing with
  | none => .passthrough newData
  | some ex =>
    let sigs := ex.features.map featureSignature
    let r := mergeGo sigs ex.features 0 0 newData.features
    .merged ⟨r.1⟩ r.2.1 r.2.2

/-! ## Zoom bounds (src/pages/home_zoom_best_so_far.py, calculate_feature_bounds) -/

/-- Python `x or d` on a float `x`: `x` is falsy exactly when it equals 0. -/
def pyOrQ (x d : ℚ) : ℚ := if x = 0 then d else x

/-- home_zoom_best_so_far.calculate_feature_bounds: the feature's own
bounding box expanded per axis by `(range * 0.1) or 0.01`; `none` when the
geometry is falsy or yields no coordinates. -/
def calculate_feature_bounds (f : Feature) : Option ((ℚ × ℚ) × (ℚ × ℚ)) :=
  match f.geometry with
  | none => none
  | some g =>
    let cs := iter_coords g
    if cs.isEmpty then none
    else
      let lats := cs.map Prod.snd
      let lons := cs.map Prod.fst
      let latPad := pyOrQ ((listMax lats - listMin lats) * (1/10)) (1/100)
      let lonPad := pyOrQ ((listMax lons - listMin lons) * (1/10)) (1/100)
      some ((listMin lats - latPad, listMin lons - lonPad),
            (listMax lats + latPad, listMax lons + lonPad))

/-- The feature's own (unpadded) bounding box ((minLat, minLon),
(maxLat, maxLon)), stated from the spec's words "computes the feature's own
bounding box" for comparison with calculate_feature_bounds. -/
def featureRawBBox (f : Feature) : Option ((ℚ × ℚ) × (ℚ × ℚ)) :=
  let cs := featureCoords f
  if cs.isEmpty then none
  else
    some ((listMin (cs.map Prod.snd), listMin (cs.map Prod.fst)),
          (listMax (cs.map Prod.snd), listMax (cs.map Prod.fst)))

/-! ## Click resolver (src/pages/home_zoom_best_so_far.py, find_clicked_feature) -/

/-- The `lats` local of point_in_polygon_bounds: the latitude of every
coordinate of the feature. -/
def featureLats (f : Feature) : List ℚ := (featureCoords f).map Prod.snd

/-- The `lons` local of point_in_polygon_bounds. -/
def featureLons (f : Feature) : List ℚ := (featureCoords f).map Prod.fst

/-- The `distance` local of point_in_polygon_bounds, squared: squared
Euclidean degree distance from the click to the vertex-average centroid. -/
def clickDistSq (lat lng : ℚ) (f : Feature) : ℚ :=
  (lat - (centroid_of_feature f).1) ^ 2 + (lng - (centroid_of_feature f).2) ^ 2

/-- The `max_range` local of point_in_polygon_bounds: the larger of the
feature's latitude span and longitude span. -/
def featureMaxRange (f : Feature) : ℚ :=
  max (listMax (featureLats f) - listMin (featureLats f))
      (listMax (featureLons f) - listMin (featureLons f))

/-- First match clause: the click lies inside the feature's (inclusive)
bounding box. -/
def inFeatureBBox (lat lng : ℚ) (f : Feature) : Prop :=
  listMin (featureLats f) ≤ lat ∧ lat ≤ listMax (featureLats f) ∧
  listMin (featureLons f) ≤ lng ∧ lng ≤ listMax (featureLons f)

instance (lat lng : ℚ) (f : Feature) : Decidable (inFeatureBBox lat lng f) := by
  unfold inFeatureBBox; infer_instance

/-- Second match clause: the centroid distance is below
`max(0.05, max_range * 0.5)`; compared in squared form, which is
equivalent since both sides are nonnegative. -/
def nearCentroid (lat lng : ℚ) (f : Feature) : Prop :=
  clickDistSq lat lng f < (max (1/20) (featureMaxRange f * (1/2))) ^ 2

instance (lat lng : ℚ) (f : Feature) : Decidable (nearCentroid lat lng f) := by
  unfold nearCentroid; infer_instance

/-- The inner helper point_in_polygon_bounds of find_clicked_feature.
Returns (is_match, distance): distance is the squared Euclidean distance
from the click to the feature's vertex-average centroid, `none` standing
for the `float('inf')` returned when the geometry is falsy.  A feature
with coordinates matches when the click lies inside its bounding box, or
when it is near the centroid. -/
def point_in_polygon_bounds (lat lng : ℚ) (f : Feature) : Bool × Option ℚ :=
  match f.geometry with
  | none => (false, none)
  | some g =>
    let d2 := clickDistSq lat lng f
    if (iter_coords g).isEmpty then (false, some d2)
    else if inFeatureBBox lat lng f then (true, some d2)
    else if nearCentroid lat lng f then (true, some d2)
    else (false, some d2)

/-- Comparison with the running best distance: `none` is `float('inf')`,
so everything is below it. -/
def ltInf (d : ℚ) : Option ℚ → Bool
  | none => true
  | some b => decide (d < b)

/-- The scanning loop of find_clicked_feature: keep the candidate whose
distance is strictly below the best seen so far. -/
def findLoop (lat lng : ℚ) (best : Option (Feature × String)) (bestD : Option ℚ) :
    List (Feature × String) → Option (Feature × String) × Option ℚ
  | [] => (best, bestD)
  | p :: rest =>
    let r := point_in_polygon_bounds lat lng p.1
    if r.1 = true then
      match r.2 with
      | some dv =>
        if ltInf dv bestD then findLoop lat lng (some p) (some dv) rest
        else findLoop lat lng best bestD rest
      | none => findLoop lat lng best bestD rest
    else findLoop lat lng best bestD rest

/-- The ordered scan list of find_clicked_feature: municipalities first,
then wildfires, then floods, each tagged with its feature_type string. -/
def allClickTargets (munis wfs fls : List Feature) : List (Feature × String) :=
  munis.map (fun f => (f, "municipality")) ++
  wfs.map (fun f => (f, "wildfire")) ++
  fls.map (fun f => (f, "flood"))

/-- home_zoom_best_so_far.find_clicked_feature. -/
def find_clicked_feature (lat lng : ℚ) (munis wfs fls : List Feature) :
    Option (Feature × String) :=
  (findLoop lat lng none none (allClickTargets munis wfs fls)).1

/-- A feature (with its kind tag) is a candidate match for the click. -/
def isCandidate (lat lng : ℚ) (p : Feature × String) : Prop :=
  (point_in_polygon_bounds lat lng p.1).1 = true

instance (lat lng : ℚ) (p : Feature × String) : Decidable (isCandidate lat lng p) := by
  unfold isCandidate; infer_instance

/-- The (squared) centroid distance reported for a feature by the helper. -/
def distSq (lat lng : ℚ) (p : Feature × String) : Option ℚ :=
  (point_in_polygon_bounds lat lng p.1).2

/-! ## Viewport state (src/pages/home_zoom_best_so_far.py) -/

/-- The session map_state dict: center, zoom, pending fit bounds, the last
clicked feature (name, type), and the pending zoom flag. -/
structure MapState where
  center : ℚ × ℚ
  zoom : ℤ
  bounds : Option ((ℚ × ℚ) × (ℚ × ℚ))
  last_clicked_feature : Option (String × String)
  zoom_to_feature : Bool
deriving DecidableEq

/-- home_zoom_best_so_far.zoom_to_feature: when the feature has computable
bounds, queue them, raise the pending flag, recenter on the bounds
midpoint, and record {name, type}; otherwise leave the state unchanged. -/
def zoom_to_feature (st : MapState) (f : Feature) (feature_type : String) : MapState :=
  match calculate_feature_bounds f with
  | none => st
  | some b =>
    { st with
      bounds := some b
      zoom_to_feature := true
      center := ((b.1.1 + b.2.1) / 2, (b.1.2 + b.2.2) / 2)
      last_clicked_feature := some (f.name.getD ("Unknown " ++ feature_type), feature_type) }

/-- The render-time consumption step (home_page, lines 613-616): when a
zoom is pending and bounds are present, the renderer fits the view and
clears only the zoom_to_feature flag. -/
def consume_pending_zoom (st : MapState) : MapState :=
  if st.zoom_to_feature && st.bounds.isSome then { st with zoom_to_feature := false }
  else st

/-! ## Heap model of the merge (for the purity/frame contract)

Python lists are mutable references.  To state that merge_incidents_data
never mutates its first argument we re-run the embedding over an explicit
store of feature lists: a reference is an index into the store,
`existing_data["features"]` is the list at reference `er`, and
`merged_features = existing_data.get("features", []).copy()` allocates a
fresh reference at the end of the store.  `list.append` mutates the store
at the given reference. -/

/-- The store of allocated feature lists; a reference is an index. -/
abbrev Store := List (List Feature)

/-- Dereference: the list held at reference `r` (unallocated reads give []). -/
def storeGet (σ : Store) (r : ℕ) : List Feature := σ.getD r []

/-- The merge loop acting on the store: appends go to the merged list's
reference `mr` via in-place mutation, exactly as `merged_features.append`. -/
def mergeLoopHeap (mr : ℕ) (σ : Store) (sigs : List String) (added dup : ℕ) :
    List Feature → Store × ℕ × ℕ
  | [] => (σ, added, dup)
  | f :: fs =>
    let s := featureSignature f
    if s ∈ sigs then mergeLoopHeap mr σ sigs added (dup + 1) fs
    else mergeLoopHeap mr (σ.set mr (storeGet σ mr ++ [f])) (s :: sigs) (added + 1) dup fs

/-- merge_incidents_data over the store, for a truthy existing collection
whose features list lives at reference `er`: returns the new store, the
reference of the merged list, and the two counters. -/
def merge_incidents_data_heap (σ : Store) (er : ℕ) (newFs : List Feature) :
    Store × ℕ × ℕ × ℕ :=
  let sigs := (storeGet σ er).map featureSignature
  let mr := σ.length
  let σ1 := σ ++ [storeGet σ er]
  let r := mergeLoopHeap mr σ1 sigs 0 0 newFs
  (r.1, mr, r.2.1, r.2.2)

/-! ## Theorems -/

/-- Signature distinctness of a feature list: no two features share a
dedup signature. -/
def SigDistinct (fs : List Feature) : Prop :=
  fs.Pairwise fun f g => featureSignature f ≠ featureSignature g

instance (fs : List Feature) : Decidable (SigDistinct fs) :=
  inferInstanceAs (Decidable (fs.Pairwise _))

end AguaLink

unseal Rat.mul Rat.add Rat.sub Rat.inv Rat.ofScientific

namespace AguaLink

/-- When every incoming feature's signature is already recorded, the merge
loop appends nothing and counts every feature as a duplicate. -/
theorem mergeGo_all_dup (sigs : List String) (acc : List Feature) (added dup : ℕ)
    (fs : List Feature) (h : ∀ f ∈ fs, featureSignature f ∈ sigs) :
    mergeGo sigs acc added dup fs = (acc, added, dup + fs.length) := by
  induction fs generalizing dup with
  | nil => simp [mergeGo]
  | cons f fs ih =>
    have hf : featureSignature f ∈ sigs := h f (List.mem_cons_self f fs)
    have harith : dup + 1 + fs.length = dup + (fs.length + 1) := by omega
    simp only [mergeGo, hf, if_true, List.length_cons]
    rw [ih (dup + 1) fun g hg => h g (List.mem_cons_of_mem f hg), harith]

/-- The merge loop preserves signature distinctness of the accumulated
list, provided every accumulated signature is recorded in `sigs`. -/
theorem mergeGo_sigDistinct (fs : List Feature) :
    ∀ (sigs : List String) (acc : List Feature) (added dup : ℕ),
      SigDistinct acc → (∀ f ∈ acc, featureSignature f ∈ sigs) →
      SigDistinct (mergeGo sigs acc added dup fs).1 := by
  induction fs with
  | nil =>
    intro sigs acc added dup hacc _
    simpa [mergeGo] using hacc
  | cons f fs ih =>
    intro sigs acc added dup hacc hsub
    by_cases hf : featureSignature f ∈ sigs
    · simp only [mergeGo, hf, if_true]
      exact ih sigs acc _ _ hacc hsub
    · simp only [mergeGo, hf, if_false]
      apply ih
      · rw [SigDistinct, List.pairwise_append]
        refine ⟨hacc, List.pairwise_singleton _ _, ?_⟩
        intro a ha b hb heq
        rw [List.mem_singleton] at hb
        subst hb
        exact hf (heq ▸ hsub a ha)
      · intro g hg
        rcases List.mem_append.mp hg with h1 | h2
        · exact List.mem_cons_of_mem _ (hsub g h1)
        · rw [List.mem_singleton] at h2
          subst h2
          exact List.mem_cons_self _ _

/-- Claim C3: merging a feature collection into itself is idempotent: no
feature is added, every feature is counted as a duplicate, and the merged
collection equals the original. -/
theorem C3_merge_idempotent (A : FeatureCollection) :
    merge_incidents_data (some A) A = .merged A 0 A.features.length := by
  simp only [merge_incidents_data]
  rw [mergeGo_all_dup _ _ _ _ _ fun f hf => List.mem_map_of_mem featureSignature hf]
  simp

/-- Claim C9: the merge also deduplicates inside the incoming batch: if the
existing features have pairwise-distinct signatures, so do the features of
the merged result. -/
theorem C9_merged_sig_distinct (ex newData m : FeatureCollection) (a d : ℕ)
    (hex : SigDistinct ex.features)
    (hm : merge_incidents_data (some ex) newData = .merged m a d) :
    SigDistinct m.features := by
  simp only [merge_incidents_data] at hm
  have h := mergeGo_sigDistinct newData.features (ex.features.map featureSignature)
    ex.features 0 0 hex fun f hf => List.mem_map_of_mem featureSignature hf
  injection hm with h1 h2 h3
  rw [← h1]
  exact h

/-- Witness for C9 at a concrete input: the incoming batch holds two
features with equal signatures (same name, type and coordinates prefix);
only the first survives into the merged list, which stays
signature-distinct. -/
theorem C9_merged_sig_distinct_witness :
    SigDistinct [⟨some (.polygon [[(0, 0)]]), some "E", some "wildfire"⟩,
                 ⟨some (.polygon [[(5, 5)]]), some "N", some "flood"⟩] :=
  C9_merged_sig_distinct
    ⟨[⟨some (.polygon [[(0, 0)]]), some "E", some "wildfire"⟩]⟩
    ⟨[⟨some (.polygon [[(5, 5)]]), some "N", some "flood"⟩,
      ⟨some (.polygon [[(5, 5)], [(9, 9)]]), some "N", some "flood"⟩]⟩
    ⟨[⟨some (.polygon [[(0, 0)]]), some "E", some "wildfire"⟩,
      ⟨some (.polygon [[(5, 5)]]), some "N", some "flood"⟩]⟩
    1 1 (by decide) (by decide)

/-- Claim C10: the result shape of merge_incidents_data is not uniform: a
falsy existing collection makes it return the incoming collection alone,
while any truthy existing collection yields the (merged, added, duplicates)
triple. -/
theorem C10_merge_result_shape :
    (∀ newData : FeatureCollection,
      merge_incidents_data none newData = .passthrough newData) ∧
    (∀ (ex newData : FeatureCollection), ∃ m a d,
      merge_incidents_data (some ex) newData = .merged m a d) :=
  ⟨fun _ => rfl, fun _ _ => ⟨_, _, _, rfl⟩⟩

/-- Claim C1 (amended): the dedup signature is the concatenation
name-type-str(coordinates[:1]), where coordinates[:1] keeps the whole
first element of the coordinates array - for a Polygon the entire first
ring, not only its first vertex - so signatures agree whenever name, type
and the full first ring agree, regardless of any later rings. -/
theorem C1_signature_first_element :
    (∀ f : Feature,
      featureSignature f =
        f.name.getD "" ++ "-" ++ f.ftype.getD "" ++ "-" ++ coordsStr f.geometry) ∧
    (∀ (n t : Option String) (r : Ring) (rs rs' : List Ring),
      featureSignature ⟨some (.polygon (r :: rs)), n, t⟩ =
        featureSignature ⟨some (.polygon (r :: rs')), n, t⟩) :=
  ⟨fun _ => rfl, fun _ _ _ _ _ => rfl⟩

/-- A store write at one reference leaves every other reference unchanged. -/
theorem storeGet_set_ne (σ : Store) {r mr : ℕ} (v : List Feature) (h : r ≠ mr) :
    storeGet (σ.set mr v) r = storeGet σ r := by
  unfold storeGet
  rw [List.getD_eq_getElem?_getD, List.getD_eq_getElem?_getD,
    List.getElem?_set_ne (Ne.symm h)]

/-- Reading back an allocated reference after writing it yields the
written list. -/
theorem storeGet_set_eq (σ : Store) {mr : ℕ} (v : List Feature) (h : mr < σ.length) :
    storeGet (σ.set mr v) mr = v := by
  unfold storeGet
  rw [List.getD_eq_getElem?_getD, List.getElem?_set_self h]
  rfl

/-- The heap merge loop only ever writes the merged list's reference:
every other reference keeps its contents. -/
theorem mergeLoopHeap_frame (mr : ℕ) (fs : List Feature) :
    ∀ (σ : Store) (sigs : List String) (a d r : ℕ), r ≠ mr →
      storeGet (mergeLoopHeap mr σ sigs a d fs).1 r = storeGet σ r := by
  induction fs with
  | nil => intro σ sigs a d r _; simp [mergeLoopHeap]
  | cons f fs ih =>
    intro σ sigs a d r hr
    by_cases hf : featureSignature f ∈ sigs
    · simp only [mergeLoopHeap, hf, if_true]
      exact ih σ sigs a (d + 1) r hr
    · simp only [mergeLoopHeap, hf, if_false]
      rw [ih _ _ _ _ r hr, storeGet_set_ne σ _ hr]

/-- At the merged list's reference, the heap merge loop computes exactly
the pure merge loop, counters included. -/
theorem mergeLoopHeap_content (mr : ℕ) (fs : List Feature) :
    ∀ (σ : Store) (sigs : List String) (a d : ℕ), mr < σ.length →
      storeGet (mergeLoopHeap mr σ sigs a d fs).1 mr =
        (mergeGo sigs (storeGet σ mr) a d fs).1 ∧
      (mergeLoopHeap mr σ sigs a d fs).2 = (mergeGo sigs (storeGet σ mr) a d fs).2 := by
  induction fs with
  | nil => intro σ sigs a d _; simp [mergeLoopHeap, mergeGo]
  | cons f fs ih =>
    intro σ sigs a d hmr
    by_cases hf : featureSignature f ∈ sigs
    · simp only [mergeLoopHeap, mergeGo, hf, if_true]
      exact ih σ sigs a (d + 1) hmr
    · simp only [mergeLoopHeap, mergeGo, hf, if_false]
      have hlen : mr < (σ.set mr (storeGet σ mr ++ [f])).length := by
        rwa [List.length_set]
      have := ih (σ.set mr (storeGet σ mr ++ [f]))
        (featureSignature f :: sigs) (a + 1) d hlen
      rwa [storeGet_set_eq σ _ hmr] at this

/-- Claim C4: merge_incidents_data never mutates the existing collection.
In the store model, after the merge the existing features list (reference
`er`) holds exactly its old contents, the merged list lives at a freshly
allocated reference distinct from `er`, and its contents are the pure
merge of the old lists. -/
theorem C4_merge_pure_frame (σ : Store) (er : ℕ) (newFs : List Feature)
    (h : er < σ.length) :
    storeGet (merge_incidents_data_heap σ er newFs).1 er = storeGet σ er ∧
    (merge_incidents_data_heap σ er newFs).2.1 = σ.length ∧
    (merge_incidents_data_heap σ er newFs).2.1 ≠ er ∧
    storeGet (merge_incidents_data_heap σ er newFs).1
        (merge_incidents_data_heap σ er newFs).2.1 =
      (mergeGo ((storeGet σ er).map featureSignature) (storeGet σ er) 0 0 newFs).1 := by
  have hne : er ≠ σ.length := Nat.ne_of_lt h
  have happl : storeGet (σ ++ [storeGet σ er]) er = storeGet σ er := by
    unfold storeGet
    rw [List.getD_eq_getElem?_getD, List.getD_eq_getElem?_getD,
      List.getElem?_append_left h]
  have happr : storeGet (σ ++ [storeGet σ er]) σ.length = storeGet σ er := by
    unfold storeGet
    rw [List.getD_eq_getElem?_getD, List.getElem?_concat_length]
    rfl
  have hlen : σ.length < (σ ++ [storeGet σ er]).length := by
    simp
  refine ⟨?_, rfl, ?_, ?_⟩
  · simp only [merge_incidents_data_heap]
    rw [mergeLoopHeap_frame σ.length newFs _ _ _ _ er hne, happl]
  · intro hc
    exact hne hc.symm
  · simp only [merge_incidents_data_heap]
    have := (mergeLoopHeap_content σ.length newFs (σ ++ [storeGet σ er])
      ((storeGet σ er).map featureSignature) 0 0 hlen).1
    rwa [happr] at this

/-- Witness for C4 at a concrete store: one allocated list holding one
wildfire; merging a two-feature batch leaves reference 0 untouched and
allocates the merged list at fresh reference 1. -/
theorem C4_merge_pure_frame_witness :
    storeGet (merge_incidents_data_heap
        [[⟨some (.polygon [[(0, 0)]]), some "E", some "wildfire"⟩]] 0
        [⟨some (.polygon [[(0, 0)]]), some "E", some "wildfire"⟩,
         ⟨some (.polygon [[(5, 5)]]), some "N", some "flood"⟩]).1 0 =
      storeGet [[⟨some (.polygon [[(0, 0)]]), some "E", some "wildfire"⟩]] 0 ∧
    (merge_incidents_data_heap
        [[⟨some (.polygon [[(0, 0)]]), some "E", some "wildfire"⟩]] 0
        [⟨some (.polygon [[(0, 0)]]), some "E", some "wildfire"⟩,
         ⟨some (.polygon [[(5, 5)]]), some "N", some "flood"⟩]).2.1 = 1 ∧
    (merge_incidents_data_heap
        [[⟨some (.polygon [[(0, 0)]]), some "E", some "wildfire"⟩]] 0
        [⟨some (.polygon [[(0, 0)]]), some "E", some "wildfire"⟩,
         ⟨some (.polygon [[(5, 5)]]), some "N", some "flood"⟩]).2.1 ≠ 0 ∧
    storeGet (merge_incidents_data_heap
        [[⟨some (.polygon [[(0, 0)]]), some "E", some "wildfire"⟩]] 0
        [⟨some (.polygon [[(0, 0)]]), some "E", some "wildfire"⟩,
         ⟨some (.polygon [[(5, 5)]]), some "N", some "flood"⟩]).1
      (merge_incidents_data_heap
        [[⟨some (.polygon [[(0, 0)]]), some "E", some "wildfire"⟩]] 0
        [⟨some (.polygon [[(0, 0)]]), some "E", some "wildfire"⟩,
         ⟨some (.polygon [[(5, 5)]]), some "N", some "flood"⟩]).2.1 =
      (mergeGo ((storeGet [[⟨some (.polygon [[(0, 0)]]), some "E", some "wildfire"⟩]] 0).map
          featureSignature)
        (storeGet [[⟨some (.polygon [[(0, 0)]]), some "E", some "wildfire"⟩]] 0) 0 0
        [⟨some (.polygon [[(0, 0)]]), some "E", some "wildfire"⟩,
         ⟨some (.polygon [[(5, 5)]]), some "N", some "flood"⟩]).1 :=
  C4_merge_pure_frame
    [[⟨some (.polygon [[(0, 0)]]), some "E", some "wildfire"⟩]] 0
    [⟨some (.polygon [[(0, 0)]]), some "E", some "wildfire"⟩,
     ⟨some (.polygon [[(5, 5)]]), some "N", some "flood"⟩]
    (by decide)

/-- Counterexample to claim C1 as stated: two features agreeing on name,
type and the first vertex (0,0) of their first ring, but differing at the
second vertex, receive different signatures, because the signature embeds
the whole first ring rather than the first vertex only. -/
theorem C1_counterexample :
    featureSignature ⟨some (.polygon [[(0, 0), (1, 1)]]), some "A", some "wildfire"⟩ ≠
      featureSignature ⟨some (.polygon [[(0, 0), (2, 2)]]), some "A", some "wildfire"⟩ := by
  decide

/-- Folding min over a list never exceeds the initial value. -/
theorem foldl_min_le_init (a : ℚ) (l : List ℚ) : l.foldl min a ≤ a := by
  induction l generalizing a with
  | nil => simp
  | cons b bs ih => exact le_trans (ih (min a b)) (min_le_left a b)

/-- Folding min over a list never exceeds any member. -/
theorem foldl_min_le_mem : ∀ (l : List ℚ) (a x : ℚ), x ∈ l → l.foldl min a ≤ x := by
  intro l
  induction l with
  | nil => intro a x hx; cases hx
  | cons b bs ih =>
    intro a x hx
    rcases List.mem_cons.mp hx with h | h
    · subst h
      exact le_trans (foldl_min_le_init (min a x) bs) (min_le_right a x)
    · exact ih (min a b) x h

/-- Python min over a nonempty list is a lower bound of its members. -/
theorem listMin_le {l : List ℚ} {x : ℚ} (hx : x ∈ l) : listMin l ≤ x := by
  match l, hx with
  | y :: ys, hx =>
    rcases List.mem_cons.mp hx with h | h
    · subst h; exact foldl_min_le_init x ys
    · exact foldl_min_le_mem ys y x h

/-- Folding max over a list is at least the initial value. -/
theorem init_le_foldl_max (a : ℚ) (l : List ℚ) : a ≤ l.foldl max a := by
  induction l generalizing a with
  | nil => simp
  | cons b bs ih => exact le_trans (le_max_left a b) (ih (max a b))

/-- Folding max over a list is at least any member. -/
theorem mem_le_foldl_max : ∀ (l : List ℚ) (a x : ℚ), x ∈ l → x ≤ l.foldl max a := by
  intro l
  induction l with
  | nil => intro a x hx; cases hx
  | cons b bs ih =>
    intro a x hx
    rcases List.mem_cons.mp hx with h | h
    · subst h
      exact le_trans (le_max_right a x) (init_le_foldl_max (max a x) bs)
    · exact ih (max a b) x h

/-- Python max over a nonempty list is an upper bound of its members. -/
theorem le_listMax {l : List ℚ} {x : ℚ} (hx : x ∈ l) : x ≤ listMax l := by
  match l, hx with
  | y :: ys, hx =>
    rcases List.mem_cons.mp hx with h | h
    · subst h; exact init_le_foldl_max x ys
    · exact mem_le_foldl_max ys y x h

/-- Claim C5: get_bounds returns a box containing every (lon, lat)
coordinate of every feature's geometry, and returns the fixed Manitoba
fallback box [[48, -102], [60.5, -88]] when the collection yields no
coordinates at all. -/
theorem C5_get_bounds_contains (features : List Feature) :
    (∀ f ∈ features, ∀ c ∈ featureCoords f,
      (get_bounds features).1.1 ≤ c.2 ∧ c.2 ≤ (get_bounds features).2.1 ∧
      (get_bounds features).1.2 ≤ c.1 ∧ c.1 ≤ (get_bounds features).2.2) ∧
    (features.flatMap featureCoords = [] →
      get_bounds features = ((48, -102), (121/2, -88))) := by
  constructor
  · intro f hf c hc
    have hmem : c ∈ features.flatMap featureCoords :=
      List.mem_flatMap.mpr ⟨f, hf, hc⟩
    have hne : ¬ (features.flatMap featureCoords).isEmpty := by
      intro he
      rw [List.isEmpty_iff] at he
      rw [he] at hmem
      cases hmem
    have hxe : ¬ ((features.flatMap featureCoords).map Prod.fst).isEmpty := by
      simpa using hne
    simp only [get_bounds, hxe, if_false]
    exact ⟨listMin_le (List.mem_map_of_mem Prod.snd hmem),
           le_listMax (List.mem_map_of_mem Prod.snd hmem),
           listMin_le (List.mem_map_of_mem Prod.fst hmem),
           le_listMax (List.mem_map_of_mem Prod.fst hmem)⟩
  · intro h
    simp [get_bounds, h]

/-- Witness for C5 at a concrete input: a two-feature collection, checking
containment of the vertex (31, 31) of the second feature. -/
theorem C5_get_bounds_contains_witness :
    (get_bounds [⟨some (.polygon [[(0, 0), (1, 0), (1, 1), (0, 1)]]), some "W", some "wildfire"⟩,
                 ⟨some (.polygon [[(30, 30), (31, 30), (31, 31)]]), some "F", some "flood"⟩]).1.1 ≤
        (31 : ℚ) ∧
    (31 : ℚ) ≤ (get_bounds [⟨some (.polygon [[(0, 0), (1, 0), (1, 1), (0, 1)]]), some "W", some "wildfire"⟩,
                 ⟨some (.polygon [[(30, 30), (31, 30), (31, 31)]]), some "F", some "flood"⟩]).2.1 ∧
    (get_bounds [⟨some (.polygon [[(0, 0), (1, 0), (1, 1), (0, 1)]]), some "W", some "wildfire"⟩,
                 ⟨some (.polygon [[(30, 30), (31, 30), (31, 31)]]), some "F", some "flood"⟩]).1.2 ≤
        (31 : ℚ) ∧
    (31 : ℚ) ≤ (get_bounds [⟨some (.polygon [[(0, 0), (1, 0), (1, 1), (0, 1)]]), some "W", some "wildfire"⟩,
                 ⟨some (.polygon [[(30, 30), (31, 30), (31, 31)]]), some "F", some "flood"⟩]).2.2 :=
  (C5_get_bounds_contains
    [⟨some (.polygon [[(0, 0), (1, 0), (1, 1), (0, 1)]]), some "W", some "wildfire"⟩,
     ⟨some (.polygon [[(30, 30), (31, 30), (31, 31)]]), some "F", some "flood"⟩]).1
    ⟨some (.polygon [[(30, 30), (31, 30), (31, 31)]]), some "F", some "flood"⟩
    (by decide) (31, 31) (by decide)

/-- Claim C2 (amended): calculate_feature_bounds expands the feature's own
bounding box on each axis by `(range * 0.1) or 0.01`, i.e. by range * 0.1
whenever that product is nonzero and by 0.01 only for a degenerate (zero
range) axis; in particular a positive latitude range below 0.1 degrees
yields a latitude padding of range * 0.1, which is strictly below 0.01 -
not the 0.01 the claim states. -/
theorem C2_padding_rule (f : Feature) (a b c d ra rb rc rd : ℚ)
    (h : calculate_feature_bounds f = some ((a, b), (c, d)))
    (hraw : featureRawBBox f = some ((ra, rb), (rc, rd))) :
    a = ra - pyOrQ ((rc - ra) * (1/10)) (1/100) ∧
    c = rc + pyOrQ ((rc - ra) * (1/10)) (1/100) ∧
    b = rb - pyOrQ ((rd - rb) * (1/10)) (1/100) ∧
    d = rd + pyOrQ ((rd - rb) * (1/10)) (1/100) ∧
    (0 < rc - ra → rc - ra < 1/10 →
      ra - a = (rc - ra) * (1/10) ∧ ra - a < 1/100) := by
  cases hg : f.geometry with
  | none => simp [calculate_feature_bounds, hg] at h
  | some g =>
    have hfc : featureCoords f = iter_coords g := by simp [featureCoords, hg]
    cases he : (iter_coords g).isEmpty with
    | true => simp [calculate_feature_bounds, hg, he] at h
    | false =>
      simp only [calculate_feature_bounds, hg, he, Bool.false_eq_true, if_false,
        Option.some_inj, Prod.mk.injEq] at h
      simp only [featureRawBBox, hfc, he, Bool.false_eq_true, if_false,
        Option.some_inj, Prod.mk.injEq] at hraw
      obtain ⟨⟨ha, hb⟩, hc, hd⟩ := h
      obtain ⟨⟨hra, hrb⟩, hrc, hrd⟩ := hraw
      subst ha hb hc hd hra hrb hrc hrd
      refine ⟨rfl, rfl, rfl, rfl, ?_⟩
      intro hpos hlt
      have hne0 : (listMax ((iter_coords g).map Prod.snd) -
          listMin ((iter_coords g).map Prod.snd)) * (1/10) ≠ 0 :=
        ne_of_gt (mul_pos hpos (by norm_num))
      rw [pyOrQ, if_neg hne0]
      constructor
      · ring
      · have := mul_lt_mul_of_pos_right hlt (show (0:ℚ) < 1/10 by norm_num)
        have harith : listMin ((iter_coords g).map Prod.snd) -
            (listMin ((iter_coords g).map Prod.snd) -
              (listMax ((iter_coords g).map Prod.snd) -
                listMin ((iter_coords g).map Prod.snd)) * (1/10)) =
            (listMax ((iter_coords g).map Prod.snd) -
              listMin ((iter_coords g).map Prod.snd)) * (1/10) := by ring
        rw [harith]
        calc (listMax ((iter_coords g).map Prod.snd) -
            listMin ((iter_coords g).map Prod.snd)) * (1/10) <
              (1/10) * (1/10) := this
          _ = 1/100 := by norm_num

/-- Witness for C2 at a concrete input: a degenerate-longitude feature
whose latitude range is 1/20; the latitude padding is 1/200, the longitude
padding falls back to 1/100. -/
theorem C2_padding_rule_witness :
    (-1/200 : ℚ) = 0 - pyOrQ (((1/20 : ℚ) - 0) * (1/10)) (1/100) ∧
    (11/200 : ℚ) = 1/20 + pyOrQ (((1/20 : ℚ) - 0) * (1/10)) (1/100) ∧
    (-1/100 : ℚ) = 0 - pyOrQ (((0 : ℚ) - 0) * (1/10)) (1/100) ∧
    (1/100 : ℚ) = 0 + pyOrQ (((0 : ℚ) - 0) * (1/10)) (1/100) ∧
    (0 < (1/20 : ℚ) - 0 → (1/20 : ℚ) - 0 < 1/10 →
      (0 : ℚ) - (-1/200) = ((1/20 : ℚ) - 0) * (1/10) ∧ (0 : ℚ) - (-1/200) < 1/100) :=
  C2_padding_rule ⟨some (.polygon [[(0, 0), (0, 1/20)]]), some "A", some "wildfire"⟩
    (-1/200) (-1/100) (11/200) (1/100) 0 0 (1/20) 0 (by decide) (by decide)

/-- Counterexample to claim C2 as stated: a feature with latitude range
1/20 (positive and below 0.1 degrees).  The claim predicts a latitude
padding of 0.01, i.e. the box ((-1/100, -1/100), (3/50, 1/100)); the code
applies `range * 0.1 = 1/200` instead, producing
((-1/200, -1/100), (11/200, 1/100)). -/
theorem C2_counterexample :
    calculate_feature_bounds ⟨some (.polygon [[(0, 0), (0, 1/20)]]), some "B", some "wildfire"⟩ =
      some ((-1/200, -1/100), (11/200, 1/100)) ∧
    calculate_feature_bounds ⟨some (.polygon [[(0, 0), (0, 1/20)]]), some "B", some "wildfire"⟩ ≠
      some ((-1/100, -1/100), (3/50, 1/100)) := by
  decide

/-- Claim C8: after zoom_to_feature on a feature with computable bounds,
the render-time consumption step clears only the zoom_to_feature flag:
the pending bounds remain the padded bounds computed at click time, the
last clicked feature remains {name, kind}, and center, zoom, bounds and
last_clicked_feature are all unchanged by the consumption. -/
theorem C8_consume_keeps_bounds (st : MapState) (f : Feature) (k : String)
    (b : (ℚ × ℚ) × (ℚ × ℚ)) (n : String)
    (hb : calculate_feature_bounds f = some b) (hn : f.name = some n) :
    (consume_pending_zoom (zoom_to_feature st f k)).zoom_to_feature = false ∧
    (consume_pending_zoom (zoom_to_feature st f k)).bounds = some b ∧
    (consume_pending_zoom (zoom_to_feature st f k)).last_clicked_feature = some (n, k) ∧
    (consume_pending_zoom (zoom_to_feature st f k)).center = (zoom_to_feature st f k).center ∧
    (consume_pending_zoom (zoom_to_feature st f k)).zoom = (zoom_to_feature st f k).zoom ∧
    (consume_pending_zoom (zoom_to_feature st f k)).bounds = (zoom_to_feature st f k).bounds ∧
    (consume_pending_zoom (zoom_to_feature st f k)).last_clicked_feature =
      (zoom_to_feature st f k).last_clicked_feature := by
  simp [zoom_to_feature, hb, consume_pending_zoom, hn]

/-- Witness for C8 at a concrete input: the default map state, a unit
square wildfire named W, kind "wildfire". -/
theorem C8_consume_keeps_bounds_witness :
    (consume_pending_zoom (zoom_to_feature ⟨(537609/10000, -988139/10000), 5, none, none, false⟩
        ⟨some (.polygon [[(0, 0), (1, 0), (1, 1), (0, 1)]]), some "W", some "wildfire"⟩
        "wildfire")).zoom_to_feature = false ∧
    (consume_pending_zoom (zoom_to_feature ⟨(537609/10000, -988139/10000), 5, none, none, false⟩
        ⟨some (.polygon [[(0, 0), (1, 0), (1, 1), (0, 1)]]), some "W", some "wildfire"⟩
        "wildfire")).bounds = some ((-1/10, -1/10), (11/10, 11/10)) ∧
    (consume_pending_zoom (zoom_to_feature ⟨(537609/10000, -988139/10000), 5, none, none, false⟩
        ⟨some (.polygon [[(0, 0), (1, 0), (1, 1), (0, 1)]]), some "W", some "wildfire"⟩
        "wildfire")).last_clicked_feature = some ("W", "wildfire") ∧
    (consume_pending_zoom (zoom_to_feature ⟨(537609/10000, -988139/10000), 5, none, none, false⟩
        ⟨some (.polygon [[(0, 0), (1, 0), (1, 1), (0, 1)]]), some "W", some "wildfire"⟩
        "wildfire")).center = (zoom_to_feature ⟨(537609/10000, -988139/10000), 5, none, none, false⟩
        ⟨some (.polygon [[(0, 0), (1, 0), (1, 1), (0, 1)]]), some "W", some "wildfire"⟩
        "wildfire").center ∧
    (consume_pending_zoom (zoom_to_feature ⟨(537609/10000, -988139/10000), 5, none, none, false⟩
        ⟨some (.polygon [[(0, 0), (1, 0), (1, 1), (0, 1)]]), some "W", some "wildfire"⟩
        "wildfire")).zoom = (zoom_to_feature ⟨(537609/10000, -988139/10000), 5, none, none, false⟩
        ⟨some (.polygon [[(0, 0), (1, 0), (1, 1), (0, 1)]]), some "W", some "wildfire"⟩
        "wildfire").zoom ∧
    (consume_pending_zoom (zoom_to_feature ⟨(537609/10000, -988139/10000), 5, none, none, false⟩
        ⟨some (.polygon [[(0, 0), (1, 0), (1, 1), (0, 1)]]), some "W", some "wildfire"⟩
        "wildfire")).bounds = (zoom_to_feature ⟨(537609/10000, -988139/10000), 5, none, none, false⟩
        ⟨some (.polygon [[(0, 0), (1, 0), (1, 1), (0, 1)]]), some "W", some "wildfire"⟩
        "wildfire").bounds ∧
    (consume_pending_zoom (zoom_to_feature ⟨(537609/10000, -988139/10000), 5, none, none, false⟩
        ⟨some (.polygon [[(0, 0), (1, 0), (1, 1), (0, 1)]]), some "W", some "wildfire"⟩
        "wildfire")).last_clicked_feature =
      (zoom_to_feature ⟨(537609/10000, -988139/10000), 5, none, none, false⟩
        ⟨some (.polygon [[(0, 0), (1, 0), (1, 1), (0, 1)]]), some "W", some "wildfire"⟩
        "wildfire").last_clicked_feature :=
  C8_consume_keeps_bounds ⟨(537609/10000, -988139/10000), 5, none, none, false⟩
    ⟨some (.polygon [[(0, 0), (1, 0), (1, 1), (0, 1)]]), some "W", some "wildfire"⟩
    "wildfire" ((-1/10, -1/10), (11/10, 11/10)) "W" (by decide) (by decide)

/-- A candidate always carries a finite reported distance. -/
theorem cand_dist_some (lat lng : ℚ) (p : Feature × String)
    (h : isCandidate lat lng p) : ∃ dv, distSq lat lng p = some dv := by
  unfold isCandidate at h
  unfold distSq
  cases hg : p.1.geometry with
  | none => rw [point_in_polygon_bounds, hg] at h; cases h
  | some g =>
    rw [point_in_polygon_bounds, hg]
    dsimp only
    split_ifs <;> exact ⟨_, rfl⟩

/-- Loop step on a non-matching feature: the scan just moves on. -/
theorem findLoop_cons_no (lat lng : ℚ) (best : Option (Feature × String))
    (bestD : Option ℚ) (p : Feature × String) (rest : List (Feature × String))
    (h : (point_in_polygon_bounds lat lng p.1).1 = false) :
    findLoop lat lng best bestD (p :: rest) = findLoop lat lng best bestD rest := by
  simp [findLoop, h]

/-- Loop step on a matching feature: the best is updated exactly when the
feature's distance is strictly below the best so far. -/
theorem findLoop_cons_yes (lat lng : ℚ) (best : Option (Feature × String))
    (bestD : Option ℚ) (p : Feature × String) (rest : List (Feature × String)) (dv : ℚ)
    (h1 : (point_in_polygon_bounds lat lng p.1).1 = true)
    (h2 : (point_in_polygon_bounds lat lng p.1).2 = some dv) :
    findLoop lat lng best bestD (p :: rest) =
      if ltInf dv bestD then findLoop lat lng (some p) (some dv) rest
      else findLoop lat lng best bestD rest := by
  simp [findLoop, h1, h2]

/-- A scan over a list without candidates leaves best and best distance
untouched. -/
theorem findLoop_no_cand (lat lng : ℚ) (l : List (Feature × String))
    (best : Option (Feature × String)) (bestD : Option ℚ)
    (h : ∀ p ∈ l, ¬ isCandidate lat lng p) :
    findLoop lat lng best bestD l = (best, bestD) := by
  induction l with
  | nil => rfl
  | cons p rest ih =>
    have hp : (point_in_polygon_bounds lat lng p.1).1 = false := by
      have := h p (List.mem_cons_self p rest)
      unfold isCandidate at this
      cases hb : (point_in_polygon_bounds lat lng p.1).1
      · rfl
      · exact absurd hb this
    rw [findLoop_cons_no lat lng best bestD p rest hp]
    exact ih fun q hq => h q (List.mem_cons_of_mem p hq)

/-- Invariant of the scan once a best candidate (p0, d0) is held: either
no later candidate beats d0 and the result is (p0, d0), or the result is
the first later candidate attaining a distance strictly below d0 that no
earlier later-candidate beats strictly and no subsequent one beats weakly. -/
theorem findLoop_spec_run (lat lng : ℚ) (l : List (Feature × String)) :
    ∀ (p0 : Feature × String) (d0 : ℚ),
      (findLoop lat lng (some p0) (some d0) l = (some p0, some d0) ∧
        ∀ q ∈ l, ∀ dq, isCandidate lat lng q → distSq lat lng q = some dq → d0 ≤ dq) ∨
      (∃ pre p suf dv, l = pre ++ p :: suf ∧
        findLoop lat lng (some p0) (some d0) l = (some p, some dv) ∧
        isCandidate lat lng p ∧ distSq lat lng p = some dv ∧ dv < d0 ∧
        (∀ q ∈ pre, ∀ dq, isCandidate lat lng q → distSq lat lng q = some dq → dv < dq) ∧
        (∀ q ∈ suf, ∀ dq, isCandidate lat lng q → distSq lat lng q = some dq → dv ≤ dq)) := by
  induction l with
  | nil =>
    intro p0 d0
    left
    exact ⟨rfl, by simp⟩
  | cons p rest ih =>
    intro p0 d0
    by_cases hc : isCandidate lat lng p
    · obtain ⟨dv, hdv⟩ := cand_dist_some lat lng p hc
      have hc' : (point_in_polygon_bounds lat lng p.1).1 = true := hc
      have hdv' : (point_in_polygon_bounds lat lng p.1).2 = some dv := hdv
      by_cases hlt : dv < d0
      · have hstep : findLoop lat lng (some p0) (some d0) (p :: rest) =
            findLoop lat lng (some p) (some dv) rest := by
          rw [findLoop_cons_yes lat lng (some p0) (some d0) p rest dv hc' hdv']
          simp [ltInf, hlt]
        rcases ih p dv with ⟨heq, hall⟩ | ⟨pre, q, suf, dw, hsplit, heq, hq, hdw, hlt2, hpre, hsuf⟩
        · right
          exact ⟨[], p, rest, dv, by simp, hstep.trans heq, hc, hdv, hlt, by simp, hall⟩
        · right
          refine ⟨p :: pre, q, suf, dw, by rw [hsplit]; rfl, hstep.trans heq, hq, hdw,
            lt_trans hlt2 hlt, ?_, hsuf⟩
          intro x hx dx hcx hdx
          rcases List.mem_cons.mp hx with rfl | hx'
          · have hde : dv = dx := by rw [hdv] at hdx; exact Option.some.inj hdx
            exact hde ▸ hlt2
          · exact hpre x hx' dx hcx hdx
      · have hge : d0 ≤ dv := le_of_not_lt hlt
        have hstep : findLoop lat lng (some p0) (some d0) (p :: rest) =
            findLoop lat lng (some p0) (some d0) rest := by
          rw [findLoop_cons_yes lat lng (some p0) (some d0) p rest dv hc' hdv']
          simp [ltInf, hlt]
        rcases ih p0 d0 with ⟨heq, hall⟩ | ⟨pre, q, suf, dw, hsplit, heq, hq, hdw, hlt2, hpre, hsuf⟩
        · left
          refine ⟨hstep.trans heq, ?_⟩
          intro x hx dx hcx hdx
          rcases List.mem_cons.mp hx with rfl | hx'
          · have hde : dv = dx := by rw [hdv] at hdx; exact Option.some.inj hdx
            exact hde ▸ hge
          · exact hall x hx' dx hcx hdx
        · right
          refine ⟨p :: pre, q, suf, dw, by rw [hsplit]; rfl, hstep.trans heq, hq, hdw, hlt2, ?_, hsuf⟩
          intro x hx dx hcx hdx
          rcases List.mem_cons.mp hx with rfl | hx'
          · have hde : dv = dx := by rw [hdv] at hdx; exact Option.some.inj hdx
            exact hde ▸ lt_of_lt_of_le hlt2 hge
          · exact hpre x hx' dx hcx hdx
    · have hc' : (point_in_polygon_bounds lat lng p.1).1 = false := by
        unfold isCandidate at hc
        cases hb : (point_in_polygon_bounds lat lng p.1).1
        · rfl
        · exact absurd hb hc
      have hstep : findLoop lat lng (some p0) (some d0) (p :: rest) =
          findLoop lat lng (some p0) (some d0) rest :=
        findLoop_cons_no lat lng (some p0) (some d0) p rest hc'
      rcases ih p0 d0 with ⟨heq, hall⟩ | ⟨pre, q, suf, dw, hsplit, heq, hq, hdw, hlt2, hpre, hsuf⟩
      · left
        refine ⟨hstep.trans heq, ?_⟩
        intro x hx dx hcx hdx
        rcases List.mem_cons.mp hx with rfl | hx'
        · exact absurd hcx hc
        · exact hall x hx' dx hcx hdx
      · right
        refine ⟨p :: pre, q, suf, dw, by rw [hsplit]; rfl, hstep.trans heq, hq, hdw, hlt2, ?_, hsuf⟩
        intro x hx dx hcx hdx
        rcases List.mem_cons.mp hx with rfl | hx'
        · exact absurd hcx hc
        · exact hpre x hx' dx hcx hdx

/-- Full characterisation of the scan started from (None, inf): when some
candidate exists, the result is the first-encountered candidate attaining
the minimum distance: every earlier candidate is strictly farther, every
later candidate at least as far. -/
theorem findLoop_spec_start (lat lng : ℚ) (l : List (Feature × String))
    (hex : ∃ p ∈ l, isCandidate lat lng p) :
    ∃ pre p suf dv, l = pre ++ p :: suf ∧
      (findLoop lat lng none none l).1 = some p ∧
      isCandidate lat lng p ∧ distSq lat lng p = some dv ∧
      (∀ q ∈ pre, ∀ dq, isCandidate lat lng q → distSq lat lng q = some dq → dv < dq) ∧
      (∀ q ∈ suf, ∀ dq, isCandidate lat lng q → distSq lat lng q = some dq → dv ≤ dq) := by
  induction l with
  | nil => exact absurd hex (by simp)
  | cons p rest ih =>
    by_cases hc : isCandidate lat lng p
    · obtain ⟨dv, hdv⟩ := cand_dist_some lat lng p hc
      have hc' : (point_in_polygon_bounds lat lng p.1).1 = true := hc
      have hdv' : (point_in_polygon_bounds lat lng p.1).2 = some dv := hdv
      have hstep : findLoop lat lng none none (p :: rest) =
          findLoop lat lng (some p) (some dv) rest := by
        rw [findLoop_cons_yes lat lng none none p rest dv hc' hdv']
        simp [ltInf]
      rcases findLoop_spec_run lat lng rest p dv with
        ⟨heq, hall⟩ | ⟨pre, q, suf, dw, hsplit, heq, hq, hdw, hlt2, hpre, hsuf⟩
      · refine ⟨[], p, rest, dv, by simp, ?_, hc, hdv, by simp, hall⟩
        rw [hstep, heq]
      · refine ⟨p :: pre, q, suf, dw, by rw [hsplit]; rfl, ?_, hq, hdw, ?_, hsuf⟩
        · rw [hstep, heq]
        · intro x hx dx hcx hdx
          rcases List.mem_cons.mp hx with rfl | hx'
          · have hde : dv = dx := by rw [hdv] at hdx; exact Option.some.inj hdx
            exact hde ▸ hlt2
          · exact hpre x hx' dx hcx hdx
    · have hc' : (point_in_polygon_bounds lat lng p.1).1 = false := by
        unfold isCandidate at hc
        cases hb : (point_in_polygon_bounds lat lng p.1).1
        · rfl
        · exact absurd hb hc
      have hstep : findLoop lat lng none none (p :: rest) =
          findLoop lat lng none none rest :=
        findLoop_cons_no lat lng none none p rest hc'
      have hex' : ∃ q ∈ rest, isCandidate lat lng q := by
        obtain ⟨q, hq, hcq⟩ := hex
        rcases List.mem_cons.mp hq with rfl | hq'
        · exact absurd hcq hc
        · exact ⟨q, hq', hcq⟩
      obtain ⟨pre, q, suf, dw, hsplit, heq, hq, hdw, hpre, hsuf⟩ := ih hex'
      refine ⟨p :: pre, q, suf, dw, by rw [hsplit]; rfl, ?_, hq, hdw, ?_, hsuf⟩
      · rw [hstep]; exact heq
      · intro x hx dx hcx hdx
        rcases List.mem_cons.mp hx with rfl | hx'
        · exact absurd hcx hc
        · exact hpre x hx' dx hcx hdx

/-- Claim C6: when at least one feature of the ordered scan list
(municipalities, then wildfires, then floods) is a candidate - inside its
bounding box or with centroid distance below max(0.05, 0.5 * max span) -
find_clicked_feature returns the first-encountered feature attaining the
minimum centroid distance among all candidates: every earlier candidate
is strictly farther (strict < makes earlier position win ties) and every
later candidate is at least as far. -/
theorem C6_resolve_click_min (lat lng : ℚ) (munis wfs fls : List Feature)
    (hex : ∃ p ∈ allClickTargets munis wfs fls, isCandidate lat lng p) :
    ∃ pre p suf dv, allClickTargets munis wfs fls = pre ++ p :: suf ∧
      find_clicked_feature lat lng munis wfs fls = some p ∧
      isCandidate lat lng p ∧ distSq lat lng p = some dv ∧
      (∀ q ∈ pre, ∀ dq, isCandidate lat lng q → distSq lat lng q = some dq → dv < dq) ∧
      (∀ q ∈ suf, ∀ dq, isCandidate lat lng q → distSq lat lng q = some dq → dv ≤ dq) :=
  findLoop_spec_start lat lng (allClickTargets munis wfs fls) hex

/-- Witness for C6 at a concrete input: a click at (0.5, 0.5) inside the
unit-square wildfire's bounding box, with a far-away flood also present. -/
theorem C6_resolve_click_min_witness :
    ∃ pre p suf dv,
      allClickTargets [] [⟨some (.polygon [[(0, 0), (1, 0), (1, 1), (0, 1)]]), some "W", some "wildfire"⟩]
          [⟨some (.polygon [[(30, 30), (31, 30), (31, 31)]]), some "F", some "flood"⟩] =
        pre ++ p :: suf ∧
      find_clicked_feature (1/2) (1/2)
          [] [⟨some (.polygon [[(0, 0), (1, 0), (1, 1), (0, 1)]]), some "W", some "wildfire"⟩]
          [⟨some (.polygon [[(30, 30), (31, 30), (31, 31)]]), some "F", some "flood"⟩] = some p ∧
      isCandidate (1/2) (1/2) p ∧ distSq (1/2) (1/2) p = some dv ∧
      (∀ q ∈ pre, ∀ dq, isCandidate (1/2) (1/2) q → distSq (1/2) (1/2) q = some dq → dv < dq) ∧
      (∀ q ∈ suf, ∀ dq, isCandidate (1/2) (1/2) q → distSq (1/2) (1/2) q = some dq → dv ≤ dq) :=
  C6_resolve_click_min (1/2) (1/2)
    [] [⟨some (.polygon [[(0, 0), (1, 0), (1, 1), (0, 1)]]), some "W", some "wildfire"⟩]
    [⟨some (.polygon [[(30, 30), (31, 30), (31, 31)]]), some "F", some "flood"⟩]
    (by decide)

/-- Claim C7: a click that, for every feature with coordinates in any of
the three lists, lies outside the feature's bounding box and is at least
the threshold max(0.05, 0.5 * max span) away from its centroid, resolves
to no feature: find_clicked_feature returns None (and, being a total
function, raises no error). -/
theorem C7_resolve_click_none (lat lng : ℚ) (munis wfs fls : List Feature)
    (hm : ∀ f ∈ munis, featureCoords f ≠ [] →
      ¬ inFeatureBBox lat lng f ∧ ¬ nearCentroid lat lng f)
    (hw : ∀ f ∈ wfs, featureCoords f ≠ [] →
      ¬ inFeatureBBox lat lng f ∧ ¬ nearCentroid lat lng f)
    (hf : ∀ f ∈ fls, featureCoords f ≠ [] →
      ¬ inFeatureBBox lat lng f ∧ ¬ nearCentroid lat lng f) :
    find_clicked_feature lat lng munis wfs fls = none := by
  have hnc : ∀ p ∈ allClickTargets munis wfs fls, ¬ isCandidate lat lng p := by
    intro p hp
    have hcond : featureCoords p.1 ≠ [] →
        ¬ inFeatureBBox lat lng p.1 ∧ ¬ nearCentroid lat lng p.1 := by
      unfold allClickTargets at hp
      rcases List.mem_append.mp hp with hp' | hp'
      · rcases List.mem_append.mp hp' with hp'' | hp''
        · obtain ⟨f, hfm, rfl⟩ := List.mem_map.mp hp''
          exact hm f hfm
        · obtain ⟨f, hfm, rfl⟩ := List.mem_map.mp hp''
          exact hw f hfm
      · obtain ⟨f, hfm, rfl⟩ := List.mem_map.mp hp'
        exact hf f hfm
    unfold isCandidate
    cases hg : p.1.geometry with
    | none => rw [point_in_polygon_bounds, hg]; simp
    | some g =>
      rw [point_in_polygon_bounds, hg]
      dsimp only
      have hfc : featureCoords p.1 = iter_coords g := by simp [featureCoords, hg]
      cases he : (iter_coords g).isEmpty with
      | true => simp
      | false =>
        have hne : featureCoords p.1 ≠ [] := by
          rw [hfc]
          intro hnil
          rw [hnil] at he
          cases he
        obtain ⟨hbb, hnear⟩ := hcond hne
        simp [hbb, hnear]
  unfold find_clicked_feature
  rw [findLoop_no_cand lat lng (allClickTargets munis wfs fls) none none hnc]

/-- Witness for C7 at a concrete input: a click at (100, 100), far outside
the bounding boxes and thresholds of both features. -/
theorem C7_resolve_click_none_witness :
    find_clicked_feature 100 100
      [] [⟨some (.polygon [[(0, 0), (1, 0), (1, 1), (0, 1)]]), some "W", some "wildfire"⟩]
      [⟨some (.polygon [[(30, 30), (31, 30), (31, 31)]]), some "F", some "flood"⟩] = none :=
  C7_resolve_click_none 100 100
    [] [⟨some (.polygon [[(0, 0), (1, 0), (1, 1), (0, 1)]]), some "W", some "wildfire"⟩]
    [⟨some (.polygon [[(30, 30), (31, 30), (31, 31)]]), some "F", some "flood"⟩]
    (by decide) (by decide) (by decide)

end AguaLink
